import Mathlib

/-!
Verification of the spa-json serializer (src/spa_json_serializer.rs).

The serializer is embedded shallowly: the Rust `Serializer` struct becomes a
Lean structure with the output buffer and indentation counter, every
`serialize_*` method of the `ser::Serializer` implementation (and of the seven
compound-serializer implementations) becomes one arm of `serializeVal`, the
driving `Serialize` values become the inductive `Value` (the serde data model
restricted to the kinds the claims are about; floats are outside the shallow
embedding), and Rust `Result`/`?` becomes `Except` with explicit matches.
-/

set_option maxRecDepth 4000

namespace SpaJson

/-- The error enum of the Rust module: `Message(String)` for producer-raised
custom errors, `Io` for wrapped storage errors (the `io::Error` payload is
abstracted to its message text). -/
inductive Error where
  | Message (msg : String)
  | Io (msg : String)
deriving DecidableEq, Repr

/-- The `Serializer` struct: a growing output buffer and an indentation
counter (`usize`, modelled as `Nat`). -/
structure Serializer where
  output : String
  indent : Nat
deriving DecidableEq, Repr

/-- The text `" ".repeat(n)`. -/
def spaces (n : Nat) : String :=
  String.mk (List.replicate n ' ')

/-- Appending text to the output buffer (`self.output += t`). -/
def write (t : String) (s : Serializer) : Serializer :=
  { s with output := s.output ++ t }

/-- The method `indent`: adds 2 to the counter. -/
def doIndent (s : Serializer) : Serializer :=
  { s with indent := s.indent + 2 }

/-- The method `dedent`: subtracts 2 saturating at 0 (`saturating_sub`,
which is exactly `Nat` subtraction). -/
def doDedent (s : Serializer) : Serializer :=
  { s with indent := s.indent - 2 }

/-- The method `write_indent`: appends `indent` many spaces. -/
def write_indent (s : Serializer) : Serializer :=
  write (spaces s.indent) s

/-- One arm of the `match` inside `escape_string`: the replacement text for a
single character. -/
def escapeChar (c : Char) : String :=
  if c = '"' then "\\\""
  else if c = '\\' then "\\\\"
  else if c = '\n' then "\\n"
  else if c = '\r' then "\\r"
  else if c = '\t' then "\\t"
  else if c = '\x08' then "\\b"
  else if c = '\x0c' then "\\f"
  else String.singleton c

/-- The function `escape_string`: folds over the characters, pushing each
replacement onto the accumulated text. -/
def escape_string (s : String) : String :=
  s.data.foldl (fun acc c => acc ++ escapeChar c) ""

/-- The serde data model as driven by producer values: every constructor
corresponds to one `serialize_*` entry point of the Rust trait
implementation. `vError` is a producer that fails with a custom message
(via `ser::Error::custom`), used to model error propagation. -/
inductive Value where
  | vBool (b : Bool)
  | vI64 (n : Int)
  | vU64 (n : Nat)
  | vChar (c : Char)
  | vStr (s : String)
  | vBytes (bs : List Nat)
  | vNone
  | vSome (v : Value)
  | vUnit
  | vUnitStruct
  | vUnitVariant (variant : String)
  | vNewtypeStruct (v : Value)
  | vNewtypeVariant (variant : String) (v : Value)
  | vSeq (xs : List Value)
  | vTuple (xs : List Value)
  | vTupleStruct (xs : List Value)
  | vTupleVariant (variant : String) (xs : List Value)
  | vMap (entries : List (Value × Value))
  | vStruct (fields : List (String × Value))
  | vStructVariant (variant : String) (fields : List (String × Value))
  | vError (msg : String)
deriving Repr

/-- The loop body of `serialize_bytes`: each byte is fed to
`serialize_element`, i.e. `write_indent`, the base-10 text of the byte
(via `serialize_u8` delegating to `serialize_u64`), and a newline. -/
def serializeBytes (bs : List Nat) (s : Serializer) : Serializer :=
  match bs with
  | [] => s
  | b :: rest => serializeBytes rest (write "\n" (write (toString b) (write_indent s)))

mutual

/-- The serializer proper. Each arm transliterates the corresponding
`serialize_*` method; delegations in the source (`serialize_char` to
`serialize_str`, `serialize_none` to `serialize_unit`, `serialize_tuple`
and `serialize_tuple_struct` to `serialize_seq`, `serialize_struct` to
`serialize_map`, integer widening to `serialize_i64`/`serialize_u64`) are
inlined. -/
def serializeVal : Value → Serializer → Except Error Serializer
  | .vBool b, s => .ok (write (if b then "true" else "false") s)
  | .vI64 n, s => .ok (write (toString n) s)
  | .vU64 n, s => .ok (write (toString n) s)
  | .vChar c, s => .ok (write (escape_string (String.singleton c)) s)
  | .vStr v, s => .ok (write (escape_string v) s)
  | .vBytes bs, s =>
    .ok (write "]" (write_indent (doDedent (serializeBytes bs (doIndent (write "[\n" s))))))
  | .vNone, s => .ok (write "null" s)
  | .vSome v, s => serializeVal v s
  | .vUnit, s => .ok (write "null" s)
  | .vUnitStruct, s => .ok (write "null" s)
  | .vUnitVariant variant, s => .ok (write (escape_string variant) s)
  | .vNewtypeStruct v, s => serializeVal v s
  | .vNewtypeVariant variant v, s =>
    match serializeVal v (write " = " (write (escape_string variant) (write "\x7b " s))) with
    | .error e => .error e
    | .ok s1 => .ok (write " \x7d" s1)
  | .vSeq xs, s =>
    match serializeElements xs (doIndent (write "[\n" s)) with
    | .error e => .error e
    | .ok s1 => .ok (write "]" (write_indent (doDedent s1)))
  | .vTuple xs, s =>
    match serializeElements xs (doIndent (write "[\n" s)) with
    | .error e => .error e
    | .ok s1 => .ok (write "]" (write_indent (doDedent s1)))
  | .vTupleStruct xs, s =>
    match serializeElements xs (doIndent (write "[\n" s)) with
    | .error e => .error e
    | .ok s1 => .ok (write "]" (write_indent (doDedent s1)))
  | .vTupleVariant variant xs, s =>
    match serializeElements xs
        (doIndent (write " = [\n"
          (write (escape_string variant) (write_indent (doIndent (write "\x7b\n" s)))))) with
    | .error e => .error e
    | .ok s1 =>
      .ok (write "\x7d" (write_indent (doDedent (write "]\n" (write_indent (doDedent s1))))))
  | .vMap entries, s =>
    match serializeEntries entries (doIndent (write "\x7b\n" s)) with
    | .error e => .error e
    | .ok s1 => .ok (write "\x7d" (write_indent (doDedent s1)))
  | .vStruct fields, s =>
    match serializeFields fields (doIndent (write "\x7b\n" s)) with
    | .error e => .error e
    | .ok s1 => .ok (write "\x7d" (write_indent (doDedent s1)))
  | .vStructVariant variant fields, s =>
    match serializeFields fields
        (doIndent (write " = \x7b\n"
          (write (escape_string variant) (write_indent (doIndent (write "\x7b\n" s)))))) with
    | .error e => .error e
    | .ok s1 =>
      .ok (write "\x7d" (write_indent (doDedent (write "\x7d\n" (write_indent (doDedent s1))))))
  | .vError msg, _ => .error (Error.Message msg)

/-- The `SerializeSeq` implementation: `serialize_element` writes the
indentation, the element, and a newline; errors abort via `?`. -/
def serializeElements : List Value → Serializer → Except Error Serializer
  | [], s => .ok s
  | v :: vs, s =>
    match serializeVal v (write_indent s) with
    | .error e => .error e
    | .ok s1 => serializeElements vs (write "\n" s1)

/-- The `SerializeMap` implementation: `serialize_key` writes the indentation
and the key, `serialize_value` writes the separator, the value and a
newline. -/
def serializeEntries : List (Value × Value) → Serializer → Except Error Serializer
  | [], s => .ok s
  | (k, v) :: rest, s =>
    match serializeVal k (write_indent s) with
    | .error e => .error e
    | .ok s1 =>
      match serializeVal v (write " = " s1) with
      | .error e => .error e
      | .ok s2 => serializeEntries rest (write "\n" s2)

/-- The `SerializeStruct` implementation: `serialize_field` writes the
indentation, the field name (a `&'static str`, serialized through
`serialize_str`), the separator, the value and a newline. -/
def serializeFields : List (String × Value) → Serializer → Except Error Serializer
  | [], s => .ok s
  | (k, v) :: rest, s =>
    match serializeVal v (write " = " (write (escape_string k) (write_indent s))) with
    | .error e => .error e
    | .ok s1 => serializeFields rest (write "\n" s1)

end

/-- The public entry point `to_string`: a fresh serializer with empty output
and indentation 0, then the value drives it; on success the buffer is the
result, on error no text is returned. -/
def to_string (value : Value) : Except Error String :=
  match serializeVal value { output := "", indent := 0 } with
  | .error e => .error e
  | .ok s => .ok s.output

mutual

/-- Whether a value tree contains a failing producer node. -/
def hasErr : Value → Bool
  | .vSome v => hasErr v
  | .vNewtypeStruct v => hasErr v
  | .vNewtypeVariant _ v => hasErr v
  | .vSeq xs => hasErrList xs
  | .vTuple xs => hasErrList xs
  | .vTupleStruct xs => hasErrList xs
  | .vTupleVariant _ xs => hasErrList xs
  | .vMap es => hasErrEntries es
  | .vStruct fs => hasErrFields fs
  | .vStructVariant _ fs => hasErrFields fs
  | .vError _ => true
  | _ => false

/-- `hasErr` over sequence elements. -/
def hasErrList : List Value → Bool
  | [] => false
  | v :: vs => hasErr v || hasErrList vs

/-- `hasErr` over map entries. -/
def hasErrEntries : List (Value × Value) → Bool
  | [] => false
  | (k, v) :: rest => hasErr k || hasErr v || hasErrEntries rest

/-- `hasErr` over record fields. -/
def hasErrFields : List (String × Value) → Bool
  | [] => false
  | (_, v) :: rest => hasErr v || hasErrFields rest

end

/-- The text appended for a byte sequence body, one base-10 byte per line at
indentation `i`. -/
def emitBytes : List Nat → Nat → String
  | [], _ => ""
  | b :: rest, i => spaces i ++ toString b ++ "\n" ++ emitBytes rest i

mutual

/-- Writer-style denotation of the serializer: the text a value appends when
serialized at indentation `i`. `serializeVal` is proved equal to this
denotation (`run_serializeVal` below); all formatting claims are read off
here. -/
def emitVal : Value → Nat → Except Error String
  | .vBool b, _ => .ok (if b then "true" else "false")
  | .vI64 n, _ => .ok (toString n)
  | .vU64 n, _ => .ok (toString n)
  | .vChar c, _ => .ok (escape_string (String.singleton c))
  | .vStr v, _ => .ok (escape_string v)
  | .vBytes bs, i => .ok ("[\n" ++ emitBytes bs (i + 2) ++ spaces i ++ "]")
  | .vNone, _ => .ok "null"
  | .vSome v, i => emitVal v i
  | .vUnit, _ => .ok "null"
  | .vUnitStruct, _ => .ok "null"
  | .vUnitVariant variant, _ => .ok (escape_string variant)
  | .vNewtypeStruct v, i => emitVal v i
  | .vNewtypeVariant variant v, i =>
    match emitVal v i with
    | .error e => .error e
    | .ok t => .ok ("\x7b " ++ escape_string variant ++ " = " ++ t ++ " \x7d")
  | .vSeq xs, i =>
    match emitElements xs (i + 2) with
    | .error e => .error e
    | .ok b => .ok ("[\n" ++ b ++ spaces i ++ "]")
  | .vTuple xs, i =>
    match emitElements xs (i + 2) with
    | .error e => .error e
    | .ok b => .ok ("[\n" ++ b ++ spaces i ++ "]")
  | .vTupleStruct xs, i =>
    match emitElements xs (i + 2) with
    | .error e => .error e
    | .ok b => .ok ("[\n" ++ b ++ spaces i ++ "]")
  | .vTupleVariant variant xs, i =>
    match emitElements xs (i + 4) with
    | .error e => .error e
    | .ok b =>
      .ok ("\x7b\n" ++ spaces (i + 2) ++ escape_string variant ++ " = [\n" ++ b
        ++ spaces (i + 2) ++ "]\n" ++ spaces i ++ "\x7d")
  | .vMap entries, i =>
    match emitEntries entries (i + 2) with
    | .error e => .error e
    | .ok b => .ok ("\x7b\n" ++ b ++ spaces i ++ "\x7d")
  | .vStruct fields, i =>
    match emitFields fields (i + 2) with
    | .error e => .error e
    | .ok b => .ok ("\x7b\n" ++ b ++ spaces i ++ "\x7d")
  | .vStructVariant variant fields, i =>
    match emitFields fields (i + 4) with
    | .error e => .error e
    | .ok b =>
      .ok ("\x7b\n" ++ spaces (i + 2) ++ escape_string variant ++ " = \x7b\n" ++ b
        ++ spaces (i + 2) ++ "\x7d\n" ++ spaces i ++ "\x7d")
  | .vError msg, _ => .error (Error.Message msg)

/-- Denotation of a sequence body: one line per element, each prefixed with
`i` spaces and terminated by a newline. -/
def emitElements : List Value → Nat → Except Error String
  | [], _ => .ok ""
  | v :: vs, i =>
    match emitVal v i with
    | .error e => .error e
    | .ok t =>
      match emitElements vs i with
      | .error e => .error e
      | .ok b => .ok (spaces i ++ t ++ "\n" ++ b)

/-- Denotation of a map body: one `key = value` line per entry. -/
def emitEntries : List (Value × Value) → Nat → Except Error String
  | [], _ => .ok ""
  | (k, v) :: rest, i =>
    match emitVal k i with
    | .error e => .error e
    | .ok tk =>
      match emitVal v i with
      | .error e => .error e
      | .ok tv =>
        match emitEntries rest i with
        | .error e => .error e
        | .ok b => .ok (spaces i ++ tk ++ " = " ++ tv ++ "\n" ++ b)

/-- Denotation of a record body: one `name = value` line per field. -/
def emitFields : List (String × Value) → Nat → Except Error String
  | [], _ => .ok ""
  | (k, v) :: rest, i =>
    match emitVal v i with
    | .error e => .error e
    | .ok tv =>
      match emitFields rest i with
      | .error e => .error e
      | .ok b => .ok (spaces i ++ escape_string k ++ " = " ++ tv ++ "\n" ++ b)

end

/-- One output line per serialized child: `i` spaces, the child's text, a
newline. -/
def concatLines : List String → Nat → String
  | [], _ => ""
  | t :: ts, i => spaces i ++ t ++ "\n" ++ concatLines ts i

/-- One output line per record field: `i` spaces, the escaped field name,
the separator, the field value's text, a newline. -/
def concatFieldLines : List String → List String → Nat → String
  | k :: ks, t :: ts, i =>
    spaces i ++ escape_string k ++ " = " ++ t ++ "\n" ++ concatFieldLines ks ts i
  | _, _, _ => ""

/-- Reversal of the escape rule, the test oracle for the round-trip claim:
a backslash followed by one of the seven escape letters decodes to the
original character, any other character decodes to itself. -/
def unescapeChars : List Char → Option (List Char)
  | [] => some []
  | c :: cs =>
    if c = '\\' then
      match cs with
      | [] => none
      | d :: ds =>
        if d = '"' then (unescapeChars ds).map (fun r => '"' :: r)
        else if d = '\\' then (unescapeChars ds).map (fun r => '\\' :: r)
        else if d = 'n' then (unescapeChars ds).map (fun r => '\n' :: r)
        else if d = 'r' then (unescapeChars ds).map (fun r => '\r' :: r)
        else if d = 't' then (unescapeChars ds).map (fun r => '\t' :: r)
        else if d = 'b' then (unescapeChars ds).map (fun r => '\x08' :: r)
        else if d = 'f' then (unescapeChars ds).map (fun r => '\x0c' :: r)
        else none
    else (unescapeChars cs).map (fun r => c :: r)

/-- The unescaper on strings. -/
def unescape_string (s : String) : Option String :=
  (unescapeChars s.data).map String.mk

/-- The lines of a text, split at newlines. -/
def linesOf (s : String) : List String :=
  (s.data.splitOn '\n').map String.mk

/-- The indentation of a line: the length of its leading run of spaces. -/
def leadingSpacesOf (s : String) : Nat :=
  (s.data.takeWhile fun c => c = ' ').length

/-- The record of the repository's own test `test_struct`:
`Test \x7b int: 1, seq: vec!["a", "b"], str: "string" \x7d`. -/
def testRecord : List (String × Value) :=
  [("int", .vU64 1), ("seq", .vSeq [.vStr "a", .vStr "b"]), ("str", .vStr "string")]

theorem serializeBytes_eq (bs : List Nat) :
    ∀ s : Serializer, serializeBytes bs s = write (emitBytes bs s.indent) s := by
  induction bs with
  | nil => intro s; simp [serializeBytes, emitBytes, write]
  | cons b rest ih =>
    intro s
    simp [serializeBytes, emitBytes, ih, write, write_indent, String.append_assoc]

mutual

/-- Running the stateful serializer from any state equals appending the
denoted text; on success the indentation counter is restored to its input
value. -/
theorem run_serializeVal (v : Value) (out : String) (i : Nat) :
    serializeVal v { output := out, indent := i } =
      (match emitVal v i with
        | .error e => .error e
        | .ok t => .ok { output := out ++ t, indent := i }) := by
  cases v with
  | vBool b => simp [serializeVal, emitVal, write]
  | vI64 n => simp [serializeVal, emitVal, write]
  | vU64 n => simp [serializeVal, emitVal, write]
  | vChar c => simp [serializeVal, emitVal, write]
  | vStr s => simp [serializeVal, emitVal, write]
  | vBytes bs =>
    simp [serializeVal, emitVal, write, doIndent, doDedent, write_indent,
      serializeBytes_eq, String.append_assoc]
  | vNone => simp [serializeVal, emitVal, write]
  | vSome w => simpa [serializeVal, emitVal] using run_serializeVal w out i
  | vUnit => simp [serializeVal, emitVal, write]
  | vUnitStruct => simp [serializeVal, emitVal, write]
  | vUnitVariant variant => simp [serializeVal, emitVal, write]
  | vNewtypeStruct w => simpa [serializeVal, emitVal] using run_serializeVal w out i
  | vNewtypeVariant variant w =>
    simp only [serializeVal, emitVal, write]
    rw [run_serializeVal w]
    cases emitVal w i with
    | error e => simp
    | ok t => simp [String.append_assoc]
  | vSeq xs =>
    simp only [serializeVal, emitVal, write, doIndent]
    rw [run_serializeElements xs]
    cases emitElements xs (i + 2) with
    | error e => simp
    | ok b => simp [doDedent, write_indent, write, String.append_assoc]
  | vTuple xs =>
    simp only [serializeVal, emitVal, write, doIndent]
    rw [run_serializeElements xs]
    cases emitElements xs (i + 2) with
    | error e => simp
    | ok b => simp [doDedent, write_indent, write, String.append_assoc]
  | vTupleStruct xs =>
    simp only [serializeVal, emitVal, write, doIndent]
    rw [run_serializeElements xs]
    cases emitElements xs (i + 2) with
    | error e => simp
    | ok b => simp [doDedent, write_indent, write, String.append_assoc]
  | vTupleVariant variant xs =>
    simp only [serializeVal, emitVal, write, doIndent, write_indent]
    rw [run_serializeElements xs]
    cases emitElements xs (i + 2 + 2) with
    | error e => simp
    | ok b => simp [doDedent, write_indent, write, String.append_assoc]
  | vMap entries =>
    simp only [serializeVal, emitVal, write, doIndent]
    rw [run_serializeEntries entries]
    cases emitEntries entries (i + 2) with
    | error e => simp
    | ok b => simp [doDedent, write_indent, write, String.append_assoc]
  | vStruct fields =>
    simp only [serializeVal, emitVal, write, doIndent]
    rw [run_serializeFields fields]
    cases emitFields fields (i + 2) with
    | error e => simp
    | ok b => simp [doDedent, write_indent, write, String.append_assoc]
  | vStructVariant variant fields =>
    simp only [serializeVal, emitVal, write, doIndent, write_indent]
    rw [run_serializeFields fields]
    cases emitFields fields (i + 2 + 2) with
    | error e => simp
    | ok b => simp [doDedent, write_indent, write, String.append_assoc]
  | vError msg => simp [serializeVal, emitVal]

/-- Sequence-body analogue of `run_serializeVal`. -/
theorem run_serializeElements (xs : List Value) (out : String) (i : Nat) :
    serializeElements xs { output := out, indent := i } =
      (match emitElements xs i with
        | .error e => .error e
        | .ok t => .ok { output := out ++ t, indent := i }) := by
  cases xs with
  | nil => simp [serializeElements, emitElements]
  | cons v vs =>
    simp only [serializeElements, emitElements, write_indent, write]
    rw [run_serializeVal v]
    cases emitVal v i with
    | error e => simp
    | ok t =>
      simp only
      rw [run_serializeElements vs]
      cases emitElements vs i with
      | error e => simp
      | ok b => simp [String.append_assoc]

/-- Map-body analogue of `run_serializeVal`. -/
theorem run_serializeEntries (es : List (Value × Value)) (out : String) (i : Nat) :
    serializeEntries es { output := out, indent := i } =
      (match emitEntries es i with
        | .error e => .error e
        | .ok t => .ok { output := out ++ t, indent := i }) := by
  cases es with
  | nil => simp [serializeEntries, emitEntries]
  | cons kv rest =>
    obtain ⟨k, v⟩ := kv
    simp only [serializeEntries, emitEntries, write_indent, write]
    rw [run_serializeVal k]
    cases emitVal k i with
    | error e => simp
    | ok tk =>
      simp only
      rw [run_serializeVal v]
      cases emitVal v i with
      | error e => simp
      | ok tv =>
        simp only
        rw [run_serializeEntries rest]
        cases emitEntries rest i with
        | error e => simp
        | ok b => simp [String.append_assoc]

/-- Record-body analogue of `run_serializeVal`. -/
theorem run_serializeFields (fs : List (String × Value)) (out : String) (i : Nat) :
    serializeFields fs { output := out, indent := i } =
      (match emitFields fs i with
        | .error e => .error e
        | .ok t => .ok { output := out ++ t, indent := i }) := by
  cases fs with
  | nil => simp [serializeFields, emitFields]
  | cons kv rest =>
    obtain ⟨k, v⟩ := kv
    simp only [serializeFields, emitFields, write_indent, write]
    rw [run_serializeVal v]
    cases emitVal v i with
    | error e => simp
    | ok tv =>
      simp only
      rw [run_serializeFields rest]
      cases emitFields rest i with
      | error e => simp
      | ok b => simp [String.append_assoc]

end

mutual

/-- Every error the denotation can return is a producer-raised `Message`,
and only trees containing a failing producer node can return one. -/
theorem emitVal_error (v : Value) (i : Nat) :
    ∀ e, emitVal v i = .error e → (∃ m, e = Error.Message m) ∧ hasErr v = true := by
  cases v with
  | vBool b => intro e h; simp [emitVal] at h
  | vI64 n => intro e h; simp [emitVal] at h
  | vU64 n => intro e h; simp [emitVal] at h
  | vChar c => intro e h; simp [emitVal] at h
  | vStr s => intro e h; simp [emitVal] at h
  | vBytes bs => intro e h; simp [emitVal] at h
  | vNone => intro e h; simp [emitVal] at h
  | vSome w =>
    intro e h
    simp only [emitVal] at h
    simpa [hasErr] using emitVal_error w i e h
  | vUnit => intro e h; simp [emitVal] at h
  | vUnitStruct => intro e h; simp [emitVal] at h
  | vUnitVariant variant => intro e h; simp [emitVal] at h
  | vNewtypeStruct w =>
    intro e h
    simp only [emitVal] at h
    simpa [hasErr] using emitVal_error w i e h
  | vNewtypeVariant variant w =>
    intro e h
    simp only [emitVal] at h
    cases hw : emitVal w i with
    | error e1 =>
      rw [hw] at h
      simp only [Except.error.injEq] at h
      subst h
      simpa [hasErr] using emitVal_error w i e1 hw
    | ok t => rw [hw] at h; simp at h
  | vSeq xs =>
    intro e h
    simp only [emitVal] at h
    cases hx : emitElements xs (i + 2) with
    | error e1 =>
      rw [hx] at h
      simp only [Except.error.injEq] at h
      subst h
      simpa [hasErr] using emitElements_error xs (i + 2) e1 hx
    | ok b => rw [hx] at h; simp at h
  | vTuple xs =>
    intro e h
    simp only [emitVal] at h
    cases hx : emitElements xs (i + 2) with
    | error e1 =>
      rw [hx] at h
      simp only [Except.error.injEq] at h
      subst h
      simpa [hasErr] using emitElements_error xs (i + 2) e1 hx
    | ok b => rw [hx] at h; simp at h
  | vTupleStruct xs =>
    intro e h
    simp only [emitVal] at h
    cases hx : emitElements xs (i + 2) with
    | error e1 =>
      rw [hx] at h
      simp only [Except.error.injEq] at h
      subst h
      simpa [hasErr] using emitElements_error xs (i + 2) e1 hx
    | ok b => rw [hx] at h; simp at h
  | vTupleVariant variant xs =>
    intro e h
    simp only [emitVal] at h
    cases hx : emitElements xs (i + 4) with
    | error e1 =>
      rw [hx] at h
      simp only [Except.error.injEq] at h
      subst h
      simpa [hasErr] using emitElements_error xs (i + 4) e1 hx
    | ok b => rw [hx] at h; simp at h
  | vMap entries =>
    intro e h
    simp only [emitVal] at h
    cases hx : emitEntries entries (i + 2) with
    | error e1 =>
      rw [hx] at h
      simp only [Except.error.injEq] at h
      subst h
      simpa [hasErr] using emitEntries_error entries (i + 2) e1 hx
    | ok b => rw [hx] at h; simp at h
  | vStruct fields =>
    intro e h
    simp only [emitVal] at h
    cases hx : emitFields fields (i + 2) with
    | error e1 =>
      rw [hx] at h
      simp only [Except.error.injEq] at h
      subst h
      simpa [hasErr] using emitFields_error fields (i + 2) e1 hx
    | ok b => rw [hx] at h; simp at h
  | vStructVariant variant fields =>
    intro e h
    simp only [emitVal] at h
    cases hx : emitFields fields (i + 4) with
    | error e1 =>
      rw [hx] at h
      simp only [Except.error.injEq] at h
      subst h
      simpa [hasErr] using emitFields_error fields (i + 4) e1 hx
    | ok b => rw [hx] at h; simp at h
  | vError msg =>
    intro e h
    simp only [emitVal, Except.error.injEq] at h
    exact ⟨⟨msg, h.symm⟩, by simp [hasErr]⟩

/-- Sequence-body analogue of `emitVal_error`. -/
theorem emitElements_error (xs : List Value) (i : Nat) :
    ∀ e, emitElements xs i = .error e → (∃ m, e = Error.Message m) ∧ hasErrList xs = true := by
  cases xs with
  | nil => intro e h; simp [emitElements] at h
  | cons v vs =>
    intro e h
    simp only [emitElements] at h
    cases hv : emitVal v i with
    | error e1 =>
      rw [hv] at h
      simp only [Except.error.injEq] at h
      subst h
      have := emitVal_error v i e1 hv
      exact ⟨this.1, by simp [hasErrList, this.2]⟩
    | ok t =>
      rw [hv] at h
      simp only at h
      cases hvs : emitElements vs i with
      | error e1 =>
        rw [hvs] at h
        simp only [Except.error.injEq] at h
        subst h
        have := emitElements_error vs i e1 hvs
        exact ⟨this.1, by simp [hasErrList, this.2]⟩
      | ok b => rw [hvs] at h; simp at h

/-- Map-body analogue of `emitVal_error`. -/
theorem emitEntries_error (es : List (Value × Value)) (i : Nat) :
    ∀ e, emitEntries es i = .error e → (∃ m, e = Error.Message m) ∧ hasErrEntries es = true := by
  cases es with
  | nil => intro e h; simp [emitEntries] at h
  | cons kv rest =>
    obtain ⟨k, v⟩ := kv
    intro e h
    simp only [emitEntries] at h
    cases hk : emitVal k i with
    | error e1 =>
      rw [hk] at h
      simp only [Except.error.injEq] at h
      subst h
      have := emitVal_error k i e1 hk
      exact ⟨this.1, by simp [hasErrEntries, this.2]⟩
    | ok tk =>
      rw [hk] at h
      simp only at h
      cases hv : emitVal v i with
      | error e1 =>
        rw [hv] at h
        simp only [Except.error.injEq] at h
        subst h
        have := emitVal_error v i e1 hv
        exact ⟨this.1, by simp [hasErrEntries, this.2]⟩
      | ok tv =>
        rw [hv] at h
        simp only at h
        cases hr : emitEntries rest i with
        | error e1 =>
          rw [hr] at h
          simp only [Except.error.injEq] at h
          subst h
          have := emitEntries_error rest i e1 hr
          exact ⟨this.1, by simp [hasErrEntries, this.2]⟩
        | ok b => rw [hr] at h; simp at h

/-- Record-body analogue of `emitVal_error`. -/
theorem emitFields_error (fs : List (String × Value)) (i : Nat) :
    ∀ e, emitFields fs i = .error e → (∃ m, e = Error.Message m) ∧ hasErrFields fs = true := by
  cases fs with
  | nil => intro e h; simp [emitFields] at h
  | cons kv rest =>
    obtain ⟨k, v⟩ := kv
    intro e h
    simp only [emitFields] at h
    cases hv : emitVal v i with
    | error e1 =>
      rw [hv] at h
      simp only [Except.error.injEq] at h
      subst h
      have := emitVal_error v i e1 hv
      exact ⟨this.1, by simp [hasErrFields, this.2]⟩
    | ok tv =>
      rw [hv] at h
      simp only at h
      cases hr : emitFields rest i with
      | error e1 =>
        rw [hr] at h
        simp only [Except.error.injEq] at h
        subst h
        have := emitFields_error rest i e1 hr
        exact ⟨this.1, by simp [hasErrFields, this.2]⟩
      | ok b => rw [hr] at h; simp at h

end

/-- A value tree with no failing producer node always serializes. -/
theorem emitVal_ok_of_noErr (v : Value) (i : Nat) (h : hasErr v = false) :
    ∃ t, emitVal v i = .ok t := by
  cases hv : emitVal v i with
  | error e =>
    have := (emitVal_error v i e hv).2
    rw [this] at h
    exact absurd h (by simp)
  | ok t => exact ⟨t, rfl⟩

/-- `to_string` is the denotation at indentation 0. -/
theorem to_string_eq (v : Value) : to_string v = emitVal v 0 := by
  unfold to_string
  rw [run_serializeVal]
  cases emitVal v 0 <;> simp

/-- A successful sequence body is exactly one line per element, each child's
text prefixed by `i` spaces and followed by a newline. -/
theorem emitElements_shape (xs : List Value) (i : Nat) :
    ∀ b, emitElements xs i = .ok b →
      ∃ ts : List String,
        List.Forall₂ (fun v t => emitVal v i = .ok t) xs ts ∧ b = concatLines ts i := by
  induction xs with
  | nil =>
    intro b h
    simp only [emitElements, Except.ok.injEq] at h
    exact ⟨[], List.Forall₂.nil, by simp [concatLines, ← h]⟩
  | cons v vs ih =>
    intro b h
    simp only [emitElements] at h
    cases hv : emitVal v i with
    | error e => rw [hv] at h; simp at h
    | ok t =>
      rw [hv] at h
      simp only at h
      cases hvs : emitElements vs i with
      | error e => rw [hvs] at h; simp at h
      | ok b1 =>
        rw [hvs] at h
        simp only [Except.ok.injEq] at h
        obtain ⟨ts, hall, hb⟩ := ih b1 hvs
        exact ⟨t :: ts, List.Forall₂.cons hv hall, by
          rw [← h, hb]; simp [concatLines, String.append_assoc]⟩

/-- A successful record body is exactly one `name = value` line per field. -/
theorem emitFields_shape (fs : List (String × Value)) (i : Nat) :
    ∀ b, emitFields fs i = .ok b →
      ∃ ts : List String,
        List.Forall₂ (fun kv t => emitVal kv.2 i = .ok t) fs ts ∧
          b = concatFieldLines (fs.map Prod.fst) ts i := by
  induction fs with
  | nil =>
    intro b h
    simp only [emitFields, Except.ok.injEq] at h
    exact ⟨[], List.Forall₂.nil, by simp [concatFieldLines, ← h]⟩
  | cons kv rest ih =>
    obtain ⟨k, v⟩ := kv
    intro b h
    simp only [emitFields] at h
    cases hv : emitVal v i with
    | error e => rw [hv] at h; simp at h
    | ok tv =>
      rw [hv] at h
      simp only at h
      cases hr : emitFields rest i with
      | error e => rw [hr] at h; simp at h
      | ok b1 =>
        rw [hr] at h
        simp only [Except.ok.injEq] at h
        obtain ⟨ts, hall, hb⟩ := ih b1 hr
        exact ⟨tv :: ts, List.Forall₂.cons hv hall, by
          rw [← h, hb]; simp [concatFieldLines, String.append_assoc]⟩

/-- `escape_string` is the concatenation of the per-character replacements,
in input order. -/
theorem escape_string_join (s : String) :
    escape_string s = String.join (s.data.map escapeChar) := by
  simp [escape_string, String.join, List.foldl_map]

/-- The sequence body for the bytes of a byte-sequence coincides with the
byte loop of `serialize_bytes`. -/
theorem emitElements_bytes (bs : List Nat) (i : Nat) :
    emitElements (bs.map Value.vU64) i = .ok (emitBytes bs i) := by
  induction bs with
  | nil => simp [emitElements, emitBytes]
  | cons b rest ih => simp [emitElements, emitBytes, emitVal, ih, String.append_assoc]

/-- Unfolding equation of `unescapeChars` at a cons cell. -/
theorem unescapeChars_cons (c : Char) (cs : List Char) :
    unescapeChars (c :: cs) =
      if c = '\\' then
        (match cs with
          | [] => none
          | d :: ds =>
            if d = '"' then (unescapeChars ds).map (fun r => '"' :: r)
            else if d = '\\' then (unescapeChars ds).map (fun r => '\\' :: r)
            else if d = 'n' then (unescapeChars ds).map (fun r => '\n' :: r)
            else if d = 'r' then (unescapeChars ds).map (fun r => '\r' :: r)
            else if d = 't' then (unescapeChars ds).map (fun r => '\t' :: r)
            else if d = 'b' then (unescapeChars ds).map (fun r => '\x08' :: r)
            else if d = 'f' then (unescapeChars ds).map (fun r => '\x0c' :: r)
            else none)
      else (unescapeChars cs).map (fun r => c :: r) := by
  rw [unescapeChars.eq_def]

/-- Decoding consumes one replacement block and yields back the character. -/
theorem unescape_escapeChar (c : Char) (rest : List Char) :
    unescapeChars ((escapeChar c).data ++ rest) =
      (unescapeChars rest).map (fun r => c :: r) := by
  by_cases h1 : c = '"'
  · subst h1; rfl
  by_cases h2 : c = '\\'
  · subst h2; rfl
  by_cases h3 : c = '\n'
  · subst h3; rfl
  by_cases h4 : c = '\r'
  · subst h4; rfl
  by_cases h5 : c = '\t'
  · subst h5; rfl
  by_cases h6 : c = '\x08'
  · subst h6; rfl
  by_cases h7 : c = '\x0c'
  · subst h7; rfl
  have hdata : (escapeChar c).data = [c] := by
    simp [escapeChar, h1, h2, h3, h4, h5, h6, h7, String.singleton]
  rw [hdata, List.singleton_append, unescapeChars_cons, if_neg h2]

/-- List-level round trip: unescaping the concatenated replacements yields
the original characters. -/
theorem unescape_flatten (cs : List Char) :
    unescapeChars ((cs.map fun c => (escapeChar c).data).flatten) = some cs := by
  induction cs with
  | nil => simp [unescapeChars]
  | cons c rest ih =>
    simp only [List.map_cons, List.flatten_cons]
    rw [unescape_escapeChar, ih]
    rfl

/-- Escaping then unescaping restores the original string. -/
theorem escape_roundtrip (s : String) : unescape_string (escape_string s) = some s := by
  unfold unescape_string
  rw [escape_string_join]
  have hdata : (String.join (s.data.map escapeChar)).data
      = (s.data.map fun c => (escapeChar c).data).flatten := by
    rw [String.data_join, List.map_map]
    rfl
  rw [hdata, unescape_flatten]
  rfl

/-- Claim C1: serializing the record `testRecord` (int = 1, seq = ["a", "b"],
str = "string") yields exactly the expected text, and in general a record
opens with a brace and a newline, emits one `indentation + name + " = " +
value + newline` line per field, and closes with `indentation + brace` and
no trailing newline. -/
theorem claim_C1 :
    to_string (.vStruct testRecord)
      = .ok "\x7b\n  int = 1\n  seq = [\n    a\n    b\n  ]\n  str = string\n\x7d"
    ∧ (∀ (fields : List (String × Value)) (out : String) (i : Nat) (st' : Serializer),
        serializeVal (.vStruct fields) { output := out, indent := i } = .ok st' →
        ∃ ts : List String,
          List.Forall₂ (fun kv t => emitVal kv.2 (i + 2) = .ok t) fields ts ∧
          st'.output = out ++ ("\x7b\n" ++ concatFieldLines (fields.map Prod.fst) ts (i + 2)
            ++ spaces i ++ "\x7d")
          ∧ st'.indent = i) := by
  constructor
  · rfl
  · intro fields out i st' h
    rw [run_serializeVal] at h
    simp only [emitVal] at h
    cases hf : emitFields fields (i + 2) with
    | error e => rw [hf] at h; simp at h
    | ok b =>
      rw [hf] at h
      simp only [Except.ok.injEq] at h
      obtain ⟨ts, hall, hb⟩ := emitFields_shape fields (i + 2) b hf
      subst hb
      subst h
      exact ⟨ts, hall, rfl, rfl⟩

/-- Witness for C1: the general record shape instantiated at `testRecord`. -/
theorem claim_C1_witness :
    ∃ ts : List String,
      List.Forall₂ (fun kv t => emitVal kv.2 (0 + 2) = .ok t) testRecord ts ∧
      ({ output := "\x7b\n  int = 1\n  seq = [\n    a\n    b\n  ]\n  str = string\n\x7d",
         indent := 0 } : Serializer).output
        = "" ++ ("\x7b\n" ++ concatFieldLines (testRecord.map Prod.fst) ts (0 + 2)
          ++ spaces 0 ++ "\x7d")
      ∧ ({ output := "\x7b\n  int = 1\n  seq = [\n    a\n    b\n  ]\n  str = string\n\x7d",
           indent := 0 } : Serializer).indent = 0 :=
  claim_C1.2 testRecord "" 0
    { output := "\x7b\n  int = 1\n  seq = [\n    a\n    b\n  ]\n  str = string\n\x7d",
      indent := 0 } rfl

/-- Claim C2: a string value is emitted as exactly the concatenation of the
per-character replacements, with no surrounding quotes; the seven special
characters map to their two-character escapes and every other character is
copied unchanged. -/
theorem claim_C2 :
    (∀ (s out : String) (i : Nat),
      serializeVal (.vStr s) { output := out, indent := i } =
        .ok { output := out ++ String.join (s.data.map escapeChar), indent := i })
    ∧ escapeChar '"' = "\\\""
    ∧ escapeChar '\\' = "\\\\"
    ∧ escapeChar '\n' = "\\n"
    ∧ escapeChar '\r' = "\\r"
    ∧ escapeChar '\t' = "\\t"
    ∧ escapeChar '\x08' = "\\b"
    ∧ escapeChar '\x0c' = "\\f"
    ∧ (∀ c : Char, c ∉ ['"', '\\', '\n', '\r', '\t', '\x08', '\x0c'] →
        escapeChar c = String.singleton c) := by
  refine ⟨?_, rfl, rfl, rfl, rfl, rfl, rfl, rfl, ?_⟩
  · intro s out i
    rw [run_serializeVal]
    simp [emitVal, escape_string_join]
  · intro c hc
    simp only [List.mem_cons, List.not_mem_nil, or_false, not_or] at hc
    obtain ⟨h1, h2, h3, h4, h5, h6, h7⟩ := hc
    simp [escapeChar, h1, h2, h3, h4, h5, h6, h7]

/-- Witness for C2: the test string of the spec, and pass-through of a
non-special character. -/
theorem claim_C2_witness :
    serializeVal (.vStr "He said \"hi\"\n") { output := "", indent := 0 } =
      .ok { output := "" ++ String.join ("He said \"hi\"\n".data.map escapeChar), indent := 0 }
    ∧ escapeChar 'ü' = String.singleton 'ü' :=
  ⟨claim_C2.1 "He said \"hi\"\n" "" 0,
   claim_C2.2.2.2.2.2.2.2.2 'ü' (by decide)⟩

/-- Claim C3 fails as stated: a newtype variant whose nested value is itself
a multi-line compound does not come out all on one line. `Newtype([1])`
serializes with newlines inside the braces. -/
theorem claim_C3_counterexample :
    to_string (.vNewtypeVariant "Newtype" (.vSeq [.vU64 1]))
      = .ok "\x7b Newtype = [\n  1\n] \x7d"
    ∧ '\n' ∈ "\x7b Newtype = [\n  1\n] \x7d".data :=
  ⟨rfl, by decide⟩

/-- Claim C3 as amended: a newtype variant emits an opening brace and space,
the variant name, the separator, the nested value's serialization and a
space and closing brace, the wrapper itself adding no newlines and leaving
the indentation counter unchanged; the result is one line exactly when the
nested value's serialization is. -/
theorem claim_C3 (variant : String) (v : Value) (out : String) (i : Nat) (t : String)
    (h : serializeVal v { output := "", indent := i } = .ok { output := t, indent := i }) :
    serializeVal (.vNewtypeVariant variant v) { output := out, indent := i } =
      .ok { output := out ++ ("\x7b " ++ escape_string variant ++ " = " ++ t ++ " \x7d"),
            indent := i } := by
  rw [run_serializeVal] at h
  rw [run_serializeVal]
  cases hv : emitVal v i with
  | error e => rw [hv] at h; simp at h
  | ok t1 =>
    rw [hv] at h
    simp only [String.empty_append, Except.ok.injEq, Serializer.mk.injEq, and_true] at h
    subst h
    simp [emitVal, hv, String.append_assoc]

/-- Witness for C3: `Newtype(1)` comes out as one line between braces. -/
theorem claim_C3_witness :
    serializeVal (.vNewtypeVariant "Newtype" (.vU64 1)) { output := "", indent := 0 } =
      .ok { output := "\x7b Newtype = 1 \x7d", indent := 0 } := by
  exact claim_C3 "Newtype" (.vU64 1) "" 0 "1" rfl

/-- Claim C4: a tuple variant opens with a brace and newline, indents and
writes the indented variant name, the separator and an opening bracket with
newline, indents again, writes one element per line, dedents and writes the
indented closing bracket and newline, dedents and writes the indented
closing brace; e.g. `Tuple(1, 2)`. -/
theorem claim_C4 (variant : String) (xs : List Value) (out : String) (i : Nat)
    (st' : Serializer)
    (h : serializeVal (.vTupleVariant variant xs) { output := out, indent := i } = .ok st') :
    ∃ ts : List String,
      List.Forall₂ (fun v t => emitVal v (i + 4) = .ok t) xs ts ∧
      st'.output = out ++ ("\x7b\n" ++ spaces (i + 2) ++ escape_string variant ++ " = [\n"
        ++ concatLines ts (i + 4) ++ spaces (i + 2) ++ "]\n" ++ spaces i ++ "\x7d")
      ∧ st'.indent = i := by
  rw [run_serializeVal] at h
  simp only [emitVal] at h
  cases hx : emitElements xs (i + 4) with
  | error e => rw [hx] at h; simp at h
  | ok b =>
    rw [hx] at h
    simp only [Except.ok.injEq] at h
    obtain ⟨ts, hall, hb⟩ := emitElements_shape xs (i + 4) b hx
    subst hb
    subst h
    exact ⟨ts, hall, rfl, rfl⟩

/-- Witness for C4: the tuple variant `Tuple(1, 2)` of the repository's own
test. -/
theorem claim_C4_witness :
    ∃ ts : List String,
      List.Forall₂ (fun v t => emitVal v (0 + 4) = .ok t) [Value.vU64 1, Value.vU64 2] ts ∧
      ({ output := "\x7b\n  Tuple = [\n    1\n    2\n  ]\n\x7d", indent := 0 }
          : Serializer).output
        = "" ++ ("\x7b\n" ++ spaces (0 + 2) ++ escape_string "Tuple" ++ " = [\n"
          ++ concatLines ts (0 + 4) ++ spaces (0 + 2) ++ "]\n" ++ spaces 0 ++ "\x7d")
      ∧ ({ output := "\x7b\n  Tuple = [\n    1\n    2\n  ]\n\x7d", indent := 0 }
          : Serializer).indent = 0 :=
  claim_C4 "Tuple" [.vU64 1, .vU64 2] "" 0
    { output := "\x7b\n  Tuple = [\n    1\n    2\n  ]\n\x7d", indent := 0 } rfl

/-- Claim C5: serialization fails only by propagating a producer-raised
error, every returned error is of the `Message` kind, and on error no text
is returned (the `Except` result carries either the full text or the bare
error). The `Io` kind is reserved for the excluded persistence step. -/
theorem claim_C5 (v : Value) :
    (∀ e, to_string v = .error e → (∃ m, e = Error.Message m) ∧ hasErr v = true)
    ∧ (hasErr v = false → ∃ s, to_string v = .ok s) := by
  constructor
  · intro e h
    rw [to_string_eq] at h
    exact emitVal_error v 0 e h
  · intro h
    obtain ⟨t, ht⟩ := emitVal_ok_of_noErr v 0 h
    exact ⟨t, by rw [to_string_eq, ht]⟩

/-- Witness for C5: a failing producer yields a `Message` error; an
error-free tree serializes. -/
theorem claim_C5_witness :
    ((∃ m, Error.Message "boom" = Error.Message m) ∧ hasErr (.vError "boom") = true)
    ∧ (∃ s, to_string (Value.vU64 7) = .ok s) :=
  ⟨(claim_C5 (.vError "boom")).1 (Error.Message "boom") rfl,
   (claim_C5 (.vU64 7)).2 rfl⟩

/-- Claim C6: every completed serialization restores the indentation counter
to its starting value (0 for a top-level call), `indent` adds 2 and `dedent`
subtracts 2 saturating at 0. -/
theorem claim_C6 :
    (∀ (v : Value) (out : String) (i : Nat) (st' : Serializer),
      serializeVal v { output := out, indent := i } = .ok st' → st'.indent = i)
    ∧ (∀ s : Serializer, (doIndent s).indent = s.indent + 2
        ∧ (doDedent s).indent = s.indent - 2) := by
  constructor
  · intro v out i st' h
    rw [run_serializeVal] at h
    cases hv : emitVal v i with
    | error e => rw [hv] at h; simp at h
    | ok t =>
      rw [hv] at h
      simp only [Except.ok.injEq] at h
      rw [← h]
  · intro s
    exact ⟨rfl, rfl⟩

/-- Witness for C6: a nested record leaves the counter at its starting
value 0. -/
theorem claim_C6_witness :
    ({ output := "\x7b\n  a = 1\n\x7d", indent := 0 } : Serializer).indent = 0 :=
  claim_C6.1 (.vStruct [("a", .vU64 1)]) "" 0
    { output := "\x7b\n  a = 1\n\x7d", indent := 0 } rfl

/-- Claim C7 fails as stated: for the sequence nested at depth 2 in
`[[1]]`, the inner closing bracket is indented 2 spaces less than its child
line, not 2×2 = 4 spaces less. -/
theorem claim_C7_counterexample :
    to_string (.vSeq [.vSeq [.vU64 1]]) = .ok "[\n  [\n    1\n  ]\n]"
    ∧ linesOf "[\n  [\n    1\n  ]\n]" = ["[", "  [", "    1", "  ]", "]"]
    ∧ leadingSpacesOf "  ]" = leadingSpacesOf "    1" - 2
    ∧ ¬(leadingSpacesOf "  ]" = leadingSpacesOf "    1" - 2 * 2) :=
  ⟨rfl, by decide, by decide, by decide⟩

/-- Claim C7 as amended: at every nesting depth, a sequence's closing
bracket is written with an indentation exactly 2 spaces (one indentation
level) less than the lines holding its children: children lines carry
`i + 2` leading spaces, the bracket `i`. -/
theorem claim_C7 (xs : List Value) (out : String) (i : Nat) (st' : Serializer)
    (h : serializeVal (.vSeq xs) { output := out, indent := i } = .ok st') :
    ∃ ts : List String,
      List.Forall₂ (fun v t => emitVal v (i + 2) = .ok t) xs ts ∧
      st'.output = out ++ ("[\n" ++ concatLines ts (i + 2) ++ spaces i ++ "]")
      ∧ st'.indent = i := by
  rw [run_serializeVal] at h
  simp only [emitVal] at h
  cases hx : emitElements xs (i + 2) with
  | error e => rw [hx] at h; simp at h
  | ok b =>
    rw [hx] at h
    simp only [Except.ok.injEq] at h
    obtain ⟨ts, hall, hb⟩ := emitElements_shape xs (i + 2) b hx
    subst hb
    subst h
    exact ⟨ts, hall, rfl, rfl⟩

/-- Witness for C7: the two-element sequence `["a", "b"]` serialized at
indentation 2, children at 4 spaces, bracket at 2. -/
theorem claim_C7_witness :
    ∃ ts : List String,
      List.Forall₂ (fun v t => emitVal v (2 + 2) = .ok t) [Value.vStr "a", Value.vStr "b"] ts ∧
      ({ output := "[\n    a\n    b\n  ]", indent := 2 } : Serializer).output
        = "" ++ ("[\n" ++ concatLines ts (2 + 2) ++ spaces 2 ++ "]")
      ∧ ({ output := "[\n    a\n    b\n  ]", indent := 2 } : Serializer).indent = 2 :=
  claim_C7 [.vStr "a", .vStr "b"] "" 2
    { output := "[\n    a\n    b\n  ]", indent := 2 } rfl

/-- Claim C8: escaping is losslessly invertible: the unescaper (defined as a
test oracle) recovers every original string, and `escape_string` is
injective. -/
theorem claim_C8 :
    (∀ s : String, unescape_string (escape_string s) = some s)
    ∧ (∀ s t : String, escape_string s = escape_string t → s = t) := by
  refine ⟨escape_roundtrip, ?_⟩
  intro s t h
  have hs := escape_roundtrip s
  rw [h, escape_roundtrip t] at hs
  exact (Option.some_inj.mp hs).symm

/-- Witness for C8: round trip of a string holding all seven special
characters, and an injectivity instance. -/
theorem claim_C8_witness :
    unescape_string (escape_string "a\"b\\c\nd\re\tf\x08g\x0ch") =
      some "a\"b\\c\nd\re\tf\x08g\x0ch"
    ∧ ("ab" : String) = "ab" :=
  ⟨claim_C8.1 "a\"b\\c\nd\re\tf\x08g\x0ch", claim_C8.2 "ab" "ab" rfl⟩

/-- Claim C9: a byte-sequence serializes to exactly the same text, from any
state, as the ordinary sequence of its bytes taken as unsigned-integer
primitives, in order. -/
theorem claim_C9 (bs : List Nat) (st : Serializer) :
    serializeVal (.vBytes bs) st = serializeVal (.vSeq (bs.map Value.vU64)) st := by
  obtain ⟨out, i⟩ := st
  rw [run_serializeVal, run_serializeVal]
  simp [emitVal, emitElements_bytes]

/-- Claim C10: the optional layer is invisible: `None` serializes exactly
like the unit value, appending the literal text `null`, and `Some(x)`
serializes exactly like `x` itself. -/
theorem claim_C10 :
    (∀ st : Serializer, serializeVal .vNone st = .ok (write "null" st)
      ∧ serializeVal .vNone st = serializeVal .vUnit st)
    ∧ (∀ (v : Value) (st : Serializer), serializeVal (.vSome v) st = serializeVal v st) := by
  refine ⟨fun st => ⟨?_, ?_⟩, fun v st => ?_⟩ <;> simp [serializeVal]

end SpaJson
